import Mathlib

/-!
Shallow embedding of the fraudulent-consumers-detection core:
`modules/mgd_model.py` (class `MGDAnomaly`), the threshold computation of
`app.py` (`main`, around lines 1328-1363) and the KPI computation of
`modules/visualization.py` (`create_kpi_cards`).

Numeric cells are modelled as `Option ℚ`: `none` plays the role of the IEEE
NaN that `numpy` floats carry (NaN propagates through arithmetic; every
comparison against NaN is false), and rational arithmetic stands in for
float arithmetic.  `np.sqrt` is modelled by a function that is `none` on
negative arguments (numpy yields NaN there) and returns a non-negative
rational approximation otherwise; no claim below depends on the exact value
of a square root, only on its sign and NaN behaviour.
-/

/-- A numeric cell of a numpy float array: `none` models IEEE NaN. -/
abbrev Cell : Type := Option ℚ

/-- Lift a binary rational operation to cells; NaN propagates, as it does
through every IEEE arithmetic operation. -/
def cLift (f : ℚ → ℚ → ℚ) : Cell → Cell → Cell
  | some x, some y => some (f x y)
  | _, _ => none

def cAdd : Cell → Cell → Cell := cLift (· + ·)
def cSub : Cell → Cell → Cell := cLift (· - ·)
def cMul : Cell → Cell → Cell := cLift (· * ·)

/-- Division of cells.  Divisors are never zero in the embedded code paths
(the scaler replaces zero scales by 1), so the `ℚ` convention `x / 0 = 0`
is never exercised by the theorems below. -/
def cDiv : Cell → Cell → Cell := cLift (· / ·)

/-- Sum of a list of cells; a NaN anywhere makes the sum NaN, as for
`np.sum`/`np.dot` over float data. -/
def cSum (l : List Cell) : Cell := l.foldr cAdd (some 0)

/-- Model of `np.sqrt` on a real argument: NaN for negative input; for
non-negative input a non-negative rational standing in for the real root. -/
def npSqrt (x : ℚ) : Cell := if x < 0 then none else some (Rat.sqrt x)

/-- The `np.sqrt` model lifted to cells (NaN in, NaN out). -/
def cSqrt (c : Cell) : Cell := c.bind npSqrt

/-- The comparison `a > b` on float cells: false whenever either side is
NaN, strict otherwise — exactly the numpy elementwise `>`. -/
def cGt (a b : Cell) : Bool :=
  match a, b with
  | some x, some y => decide (y < x)
  | _, _ => false

/-- Model of `np.isnan(...).any()` over a matrix of cells. -/
def hasNaN (X : List (List Cell)) : Bool :=
  X.any (fun r => r.any (fun c => c.isNone))

/-- Number of columns of a numpy 2-D array embedded row-major
(`X.shape[1]`); meaningful under the rectangularity hypothesis `Rect`. -/
def ncols (X : List (List Cell)) : Nat := (X.headD []).length

/-- Rectangularity: all rows have length `d` (true of every numpy 2-D
array; list-of-lists embeddings need it as an explicit hypothesis). -/
def Rect (X : List (List Cell)) (d : Nat) : Prop := ∀ r ∈ X, r.length = d

instance (X : List (List Cell)) (d : Nat) : Decidable (Rect X d) :=
  inferInstanceAs (Decidable (∀ r ∈ X, r.length = d))

/-- Column `j` of the matrix. -/
def colAt (X : List (List Cell)) (j : Nat) : List Cell :=
  X.map (fun r => r.getD j none)

/-- Model of `np.nanmean` of one column: the mean of the non-NaN entries, NaN when
every entry is NaN (numpy emits a RuntimeWarning and returns NaN there). -/
def nanMean (col : List Cell) : Cell :=
  let vals := col.filterMap id
  if vals.length = 0 then none else some (vals.sum / (vals.length : ℚ))

/-- Model of `np.nanmean(X, axis=0)`: the per-column nan-aware means
(`col_means` in `fit`/`score_samples`). -/
def colNanMeans (X : List (List Cell)) : List Cell :=
  (List.range (ncols X)).map (fun j => nanMean (colAt X j))

/-- Impute one row: each NaN cell is overwritten with the batch mean
of its column (`X_data[inds] = np.take(col_means, inds[1])`); a NaN mean (all-NaN
column) writes NaN back. -/
def imputeRow (means : List Cell) (row : List Cell) : List Cell :=
  List.zipWith (fun c mc => if c.isNone then mc else c) row means

/-- The NaN-imputation block shared by `fit` and `score_samples`
(mgd_model.py lines 51-56 and 95-100): only runs when the batch contains a
NaN, and replaces each NaN with the mean of its column over the current batch. -/
def npImpute (X : List (List Cell)) : List (List Cell) :=
  if hasNaN X then X.map (imputeRow (colNanMeans X)) else X

/-- Model of `np.nanvar` of one column (population variance over the non-NaN
entries; NaN when all entries are NaN). -/
def nanVar (col : List Cell) : Cell :=
  let vals := col.filterMap id
  if vals.length = 0 then none
  else
    let mn := vals.sum / (vals.length : ℚ)
    some ((vals.map (fun v => (v - mn) ^ 2)).sum / (vals.length : ℚ))

/-- The sklearn helper `_handle_zeros_in_scale`: a zero standard deviation is
replaced by 1 so that constant features transform to 0 instead of dividing
by zero; NaN scales stay NaN. -/
def handleZeros (c : Cell) : Cell := c.map (fun s => if s = 0 then 1 else s)

/-- The per-column `scale_` learned by `StandardScaler.fit`:
`sqrt(nanvar)` with zero scales replaced by 1. -/
def colScales (X : List (List Cell)) : List Cell :=
  (List.range (ncols X)).map (fun j => handleZeros (cSqrt (nanVar (colAt X j))))

/-- Model of `np.mean` of a list of cells (plain mean: NaN if any entry is NaN;
`np.mean` of an empty array is NaN). -/
def npMeanList (l : List Cell) : Cell :=
  if l.length = 0 then none else cDiv (cSum l) (some (l.length : ℚ))

/-- Model of `np.std` of a list of cells (population standard deviation; NaN on NaN
input or empty input). -/
def npVarList (l : List Cell) : Cell :=
  if l.length = 0 then none
  else cDiv (cSum (l.map (fun c => cMul (cSub c (npMeanList l)) (cSub c (npMeanList l)))))
            (some (l.length : ℚ))

def npStdList (l : List Cell) : Cell := cSqrt (npVarList l)

/-- Errors surfaced as Python `ValueError`s by the sklearn calls inside
`fit`/`score_samples` (the repository adds no checks of its own):
`emptyInput` = "0 sample(s) required", `zeroFeatures` = "0 feature(s)
required", `dimensionMismatch` = "X has n features, but StandardScaler is
expecting m features as input", `nanInput` = "Input contains NaN" from
`EmpiricalCovariance.fit`. -/
inductive PyErr
  | emptyInput
  | zeroFeatures
  | dimensionMismatch
  | nanInput
deriving DecidableEq, Repr

instance {ε α : Type _} [DecidableEq ε] [DecidableEq α] : DecidableEq (Except ε α) :=
  fun x y =>
    match x, y with
    | .ok a, .ok b =>
      if h : a = b then isTrue (by rw [h]) else isFalse (fun hh => h (Except.ok.inj hh))
    | .error a, .error b =>
      if h : a = b then isTrue (by rw [h]) else isFalse (fun hh => h (Except.error.inj hh))
    | .ok _, .error _ => isFalse (fun hh => Except.noConfusion hh)
    | .error _, .ok _ => isFalse (fun hh => Except.noConfusion hh)

/-- The state of a Python `MGDAnomaly` object: the learned scaler
parameters `mean_` and `scale_`, the standardized-space mean `mu`, and the empirical
covariance and its (pseudo-)inverse held by `cov_estimator`.  After a
successful `fit` none of these contain NaN, so they are plain rationals. -/
structure MGDAnomaly where
  fitted : Bool
  means : List ℚ
  scales : List ℚ
  mu : List ℚ
  covariance : List (List ℚ)
  precision : List (List ℚ)
deriving DecidableEq, Repr

/-- Embedding of `MGDAnomaly.__init__`: unfitted, nothing learned. -/
def initMGD : MGDAnomaly :=
  { fitted := false, means := [], scales := [], mu := [], covariance := [], precision := [] }

/-- Embedding of `StandardScaler.transform` on one row with the stored fit-time
parameters: `(x - mean_) / scale_`, NaN propagating. -/
def transformRow (means scales : List ℚ) (row : List Cell) : List Cell :=
  List.zipWith (fun c p => cDiv (cSub c (some (Prod.fst p))) (some (Prod.snd p)))
    row (means.zip scales)

/-- Embedding of `StandardScaler.transform` on a batch, including the sklearn input
validation in the order it runs: `check_array` rejects 0 samples and 0
features, then `_check_n_features` rejects a column count different from
the fit-time one with the dimension-mismatch `ValueError`.  NaN cells are
allowed and preserved (the allow-nan mode of `check_array`). -/
def scalerTransform (means scales : List ℚ) (X : List (List Cell)) :
    Except PyErr (List (List Cell)) :=
  if X.length = 0 then .error .emptyInput
  else if ncols X = 0 then .error .zeroFeatures
  else if ncols X ≠ means.length then .error .dimensionMismatch
  else .ok (X.map (transformRow means scales))

/-- Dot product of two cell vectors (`np.dot`); NaN propagates. -/
def dotC (v w : List Cell) : Cell := cSum (List.zipWith cMul v w)

/-- Computes `P · v` for a rational matrix and a cell vector. -/
def matVecC (P : List (List ℚ)) (v : List Cell) : List Cell :=
  P.map (fun row => dotC (row.map some) v)

/-- The squared Mahalanobis form `vᵀ · P · v` as computed in
`score_samples` (`np.dot(np.dot(centered_x, precision), centered_x)`;
associating as `v ⬝ (P ⬝ v)` gives the same value and the same NaN
propagation for every `P`). -/
def mahaSq (P : List (List ℚ)) (v : List Cell) : Cell := dotC v (matVecC P v)

/-- Rational dot product. -/
def dotQ (v w : List ℚ) : ℚ := (List.zipWith (· * ·) v w).sum

/-- The rational quadratic form `vᵀ · P · v`. -/
def qformQ (P : List (List ℚ)) (v : List ℚ) : ℚ :=
  dotQ v (P.map (fun row => dotQ row v))

/-- Score one standardized row (`score_samples` lines 109-115): center at
`mu`, apply the precision quadratic form, take the square root. -/
def scoreRowStd (m : MGDAnomaly) (xs : List Cell) : Cell :=
  cSqrt (mahaSq m.precision (List.zipWith cSub xs (m.mu.map some)))

/-- Embedding of `MGDAnomaly.score_samples` (mgd_model.py lines 68-117): an unfitted
model returns an empty array; otherwise NaNs are imputed with column means
taken from the scoring batch itself, the stored scaler standardizes (raising on a
column-count mismatch), and each row gets its Mahalanobis distance, in
input order. -/
def scoreSamples (m : MGDAnomaly) (X : List (List Cell)) : Except PyErr (List Cell) :=
  if m.fitted = false then .ok []
  else
    match scalerTransform m.means m.scales (npImpute X) with
    | .error e => .error e
    | .ok Xs => .ok (Xs.map (scoreRowStd m))

/-- The mean of each column of an all-numeric matrix (used for `mu` and
the empirical covariance below, both computed on NaN-free data). -/
def colMeanQ (M : List (List ℚ)) (d : Nat) : List ℚ :=
  (List.range d).map (fun j => ((M.map (fun r => r.getD j 0)).sum) / (M.length : ℚ))

/-- Embedding of `EmpiricalCovariance.fit` on NaN-free standardized data: the maximum
likelihood covariance `cov[i][j] = Σ_r (x_ri - m_i)(x_rj - m_j) / n`. -/
def covQ (M : List (List ℚ)) (d : Nat) : List (List ℚ) :=
  let mns := colMeanQ M d
  (List.range d).map (fun i =>
    (List.range d).map (fun j =>
      ((M.map (fun r => (r.getD i 0 - mns.getD i 0) * (r.getD j 0 - mns.getD j 0))).sum)
        / (M.length : ℚ)))

/-- Embedding of `MGDAnomaly.fit` (mgd_model.py lines 26-66).  An empty input leaves the
model unfitted and returns normally.  Otherwise: NaNs are imputed with
batch column means, the scaler learns nan-aware per-column mean/scale and
standardizes, and `EmpiricalCovariance.fit` runs on the standardized data —
raising `ValueError` ("Input contains NaN") whenever a NaN survived
imputation, i.e. whenever some column of the batch was entirely NaN.

The stored `precision_` is `pinvh` of the empirical covariance; its entries
are irrational in general, so the embedding takes the precision matrix as
the parameter `P`.  sklearn guarantees `P` is symmetric positive
semidefinite; no claim below depends on its exact entries, and the theorems
that need positive semidefiniteness state it as a hypothesis. -/
def fit (X : List (List Cell)) (P : List (List ℚ)) : Except PyErr MGDAnomaly :=
  if X.length = 0 then .ok initMGD
  else
    let X1 := npImpute X
    let meansC := colNanMeans X1
    let scalesC := colScales X1
    let Xs := X1.map (fun row =>
      List.zipWith (fun c p => cDiv (cSub c (Prod.fst p)) (Prod.snd p)) row (meansC.zip scalesC))
    if hasNaN Xs then .error .nanInput
    else
      let XsQ := Xs.map (fun r => r.map (fun c => c.getD 0))
      .ok { fitted := true
          , means := meansC.map (fun c => c.getD 0)
          , scales := scalesC.map (fun c => c.getD 0)
          , mu := colMeanQ XsQ (ncols X1)
          , covariance := covQ XsQ (ncols X1)
          , precision := P }

/-- Embedding of `MGDAnomaly.predict` (mgd_model.py lines 119-145): score, return an
empty array for empty scores, default the threshold to `mean + 3·std` when
none is given, and return `(scores > threshold).astype(int)` — the integer
0/1 decision vector only. -/
def predict (m : MGDAnomaly) (X : List (List Cell)) (threshold : Option ℚ) :
    Except PyErr (List ℤ) :=
  match scoreSamples m X with
  | .error e => .error e
  | .ok scores =>
    if scores.length = 0 then .ok []
    else
      let thr : Cell := match threshold with
        | some t => some t
        | none => cAdd (npMeanList scores) (cMul (some 3) (npStdList scores))
      .ok (scores.map (fun s => if cGt s thr then (1 : ℤ) else 0))

/-- Embedding of `MGDAnomaly.get_feature_importance` (mgd_model.py lines 147-161): an
unfitted model returns an empty array; otherwise the absolute values of the
diagonal of the stored covariance matrix. -/
def getFeatureImportance (m : MGDAnomaly) : List ℚ :=
  if m.fitted = false then []
  else (List.range m.covariance.length).map (fun i => |(m.covariance.getD i []).getD i 0|)

/-- The anomaly mask `scores > threshold` (app.py line 1363,
visualization.py line 426): elementwise strict comparison, false on NaN. -/
def anomalyMask (scores : List Cell) (thr : Cell) : List Bool :=
  scores.map (fun s => cGt s thr)

/-- The scoring-and-threshold part of `app.py main` (lines 1328-1363): an
empty feature table yields no scores and threshold 0 by convention; a
non-empty one is fitted and scored, and the threshold is
`np.mean(scores) + k · np.std(scores)` for the user slider factor `k`. -/
def appPipeline (features : List (List Cell)) (P : List (List ℚ)) (k : ℚ) :
    Except PyErr (List Cell × Cell) :=
  if features.length = 0 then .ok ([], some 0)
  else
    match fit features P with
    | .error e => .error e
    | .ok m =>
      match scoreSamples m features with
      | .error e => .error e
      | .ok scores =>
        .ok (scores, cAdd (npMeanList scores) (cMul (some k) (npStdList scores)))

/-- The customer table as `create_kpi_cards` consumes it: a row count and,
when the ground-truth `is_fraudulent` column is present, its boolean
values. -/
structure CustomerTable where
  n : Nat
  fraud : Option (List Bool)
deriving DecidableEq, Repr

/-- The KPI record returned by `create_kpi_cards`; `recallVal` models the
dictionary entry named "recall" in the source. -/
structure KPIMetrics where
  totalCustomers : Nat
  anomaliesDetected : Nat
  detectionRate : ℚ
  precision : Option ℚ
  recallVal : Option ℚ
  f1 : Option ℚ
deriving DecidableEq, Repr

/-- Embedding of `create_kpi_cards` (visualization.py lines 382-467): empty inputs give
the all-zero/None record; mismatched lengths are truncated to the shorter;
the anomaly mask is `scores > threshold`; detection rate is
`anomalies/total·100`; with ground truth, precision/recall/F1 with the 0
fallbacks of the source; without it they are `None`. -/
def createKpiCards (scores : List Cell) (thr : Cell) (cust : CustomerTable) : KPIMetrics :=
  if scores.length = 0 ∨ cust.n = 0 then
    { totalCustomers := 0, anomaliesDetected := 0, detectionRate := 0
    , precision := none, recallVal := none, f1 := none }
  else
    let ns := min cust.n scores.length
    let scores1 := if scores.length ≠ cust.n then scores.take ns else scores
    let total := if scores.length ≠ cust.n then ns else cust.n
    let fraud1 := if scores.length ≠ cust.n then cust.fraud.map (fun l => l.take ns) else cust.fraud
    let mask := anomalyMask scores1 thr
    let anomalies := (mask.filter (fun b => b)).length
    let detection : ℚ := if 0 < total then ((anomalies : ℚ) / (total : ℚ)) * 100 else 0
    match fraud1 with
    | some labels =>
      let tp := ((List.zipWith (fun a b => a && b) mask labels).filter (fun b => b)).length
      let tf := (labels.filter (fun b => b)).length
      let prec : ℚ := if 0 < anomalies then ((tp : ℚ) / (anomalies : ℚ)) * 100 else 0
      let recv : ℚ := if 0 < tf then ((tp : ℚ) / (tf : ℚ)) * 100 else 0
      let f1v : ℚ := if 0 < prec + recv then 2 * ((prec * recv) / (prec + recv)) else 0
      { totalCustomers := total, anomaliesDetected := anomalies, detectionRate := detection
      , precision := some prec, recallVal := some recv, f1 := some f1v }
    | none =>
      { totalCustomers := total, anomaliesDetected := anomalies, detectionRate := detection
      , precision := none, recallVal := none, f1 := none }

/-- Frame effect of `fit` on the array passed by the caller: `fit` aliases a numpy
input and writes imputed values into it in place, so after `fit` the
array passed by the caller holds the imputed
batch; an empty input returns before imputation. -/
def fitArrayAfter (X : List (List Cell)) : List (List Cell) :=
  if X.length = 0 then X else npImpute X

/-- Frame effect of `score_samples` on the array passed by the caller: the same
in-place imputation, skipped only on the unfitted early return. -/
def scoreArrayAfter (m : MGDAnomaly) (X : List (List Cell)) : List (List Cell) :=
  if m.fitted = false then X else npImpute X

/-! ### Concrete instances used by witnesses and counterexamples -/

/-- A fitted one-feature model: the state `MGDAnomaly.fit` reaches on the
batch `[[1],[2],[3]]` scaled by the embedded (integer-approximate) square
root, with `precision_ = pinvh([[cov]])`, here the 1×1 identity. -/
def oneFeatModel : MGDAnomaly :=
  { fitted := true, means := [2], scales := [1], mu := [0]
  , covariance := [[2/3]], precision := [[1]] }

/-- Scores for the P7 scenario: 100 customers, the 8 flagged ones (score 2
against threshold 1) are rows 0-4 (true frauds) and rows 10-12. -/
def p7scores : List Cell :=
  List.replicate 5 (some 2) ++ List.replicate 5 (some 0) ++
    List.replicate 3 (some 2) ++ List.replicate 87 (some 0)

/-- Ground truth for the P7 scenario: rows 0-9 are the 10 true frauds. -/
def p7fraud : List Bool := List.replicate 10 true ++ List.replicate 90 false

/-- The P7 customer table: 100 customers with ground-truth labels. -/
def p7cust : CustomerTable := { n := 100, fraud := some p7fraud }

/-! ### Basic lemmas about the cell arithmetic -/

theorem cLift_none_left (f : ℚ → ℚ → ℚ) (b : Cell) : cLift f none b = none := by
  cases b <;> rfl

theorem cLift_none_right (f : ℚ → ℚ → ℚ) (a : Cell) : cLift f a none = none := by
  cases a <;> rfl

theorem cSum_cons (c : Cell) (l : List Cell) : cSum (c :: l) = cAdd c (cSum l) := rfl

theorem cAdd_none_left (b : Cell) : cAdd none b = none := cLift_none_left _ b

theorem cAdd_none_right (a : Cell) : cAdd a none = none := cLift_none_right _ a

/-- A NaN anywhere poisons a float sum. -/
theorem cSum_eq_none_of_mem (l : List Cell) (h : none ∈ l) : cSum l = none := by
  induction l with
  | nil => cases h
  | cons c t ih =>
    rcases List.mem_cons.mp h with h1 | h2
    · rw [cSum_cons, ← h1, cAdd_none_left]
    · rw [cSum_cons, ih h2, cAdd_none_right]

/-- Summing NaN-free cells is summing their rational values. -/
theorem cSum_map_some (l : List ℚ) : cSum (l.map some) = some l.sum := by
  induction l with
  | nil => rfl
  | cons a t ih => rw [List.map_cons, cSum_cons, ih, List.sum_cons]; rfl

/-- Zipping NaN-free cells with a lifted operation computes the rational
zip. -/
theorem zipWith_cLift_map_some (f : ℚ → ℚ → ℚ) (a b : List ℚ) :
    List.zipWith (cLift f) (a.map some) (b.map some) = (List.zipWith f a b).map some := by
  induction a generalizing b with
  | nil => simp
  | cons x xs ih =>
    cases b with
    | nil => simp
    | cons y ys => simp [cLift, ih]

theorem dotC_map_some (v w : List ℚ) : dotC (v.map some) (w.map some) = some (dotQ v w) := by
  unfold dotC dotQ
  rw [show cMul = cLift (· * ·) from rfl, zipWith_cLift_map_some, cSum_map_some]

/-! ### Theorems for the claims -/

/-- C1 counterexample: a freshly constructed (never fitted) model does not
reject scoring or feature-importance requests — `score_samples` returns a
normal empty result and `get_feature_importance` returns an empty array,
contradicting the claim that a NotFitted error is raised. -/
theorem unfitted_score_returns_ok_empty :
    initMGD.fitted = false ∧
    scoreSamples initMGD [[some 1]] = .ok [] ∧
    getFeatureImportance initMGD = [] :=
  ⟨rfl, rfl, rfl⟩

/-- C1 (amended): on every model instance whose fitted flag is unset,
`score_samples` silently returns an empty score array (an `.ok` result,
not an error) and `get_feature_importance` silently returns an empty
array. -/
theorem unfitted_returns_empty_arrays (m : MGDAnomaly) (X : List (List Cell))
    (h : m.fitted = false) :
    scoreSamples m X = .ok [] ∧ getFeatureImportance m = [] := by
  unfold scoreSamples getFeatureImportance
  rw [h]
  exact ⟨rfl, rfl⟩

/-- C1 witness: the amended statement at the freshly initialized model. -/
theorem unfitted_returns_empty_arrays_witness :
    scoreSamples initMGD [[some 2]] = .ok [] ∧ getFeatureImportance initMGD = [] :=
  unfitted_returns_empty_arrays initMGD [[some 2]] rfl

/-- C2 (amended): for every model, input and user-supplied threshold `t`,
`predict` returns exactly the integer 0/1 vector of the strict comparison
`score_samples(X) > t` (propagating scoring errors); it returns nothing
else — in particular the scores are not part of the return value. -/
theorem predict_eq_int_mask (m : MGDAnomaly) (X : List (List Cell)) (t : ℚ) :
    predict m X (some t) =
      (scoreSamples m X).map
        (fun scores => scores.map (fun s => if cGt s (some t) then (1 : ℤ) else 0)) := by
  unfold predict
  cases hs : scoreSamples m X with
  | error e => rfl
  | ok scores =>
    by_cases h : scores.length = 0
    · rw [List.length_eq_zero] at h
      subst h
      rfl
    · show (if scores.length = 0 then _ else _) = _
      rw [if_neg h]
      rfl

/-- C2 counterexample: two inputs with different score vectors on which
`predict` (at the same user threshold) returns identical values, so the
value `predict` returns cannot contain the scores — refuting the claim
that the scores are returned alongside the boolean decision. -/
theorem predict_does_not_return_scores :
    predict oneFeatModel [[some 1]] (some 10) = predict oneFeatModel [[some 2]] (some 10) ∧
    scoreSamples oneFeatModel [[some 1]] ≠ scoreSamples oneFeatModel [[some 2]] := by
  with_unfolding_all decide

/-- C5: a row is flagged by the anomaly mask `scores > threshold` iff its
score is a (non-NaN) number strictly greater than the threshold; in
particular a score exactly equal to the threshold is not flagged. -/
theorem anomaly_mask_strict (scores : List Cell) (t : ℚ) (i : Nat)
    (h : i < scores.length) :
    ((anomalyMask scores (some t)).getD i false = true ↔
      ∃ q, scores.getD i none = some q ∧ t < q) := by
  unfold anomalyMask
  rw [List.getD_eq_getElem?_getD, List.getElem?_map, List.getElem?_eq_getElem h,
    List.getD_eq_getElem?_getD, List.getElem?_eq_getElem h]
  cases hs : scores[i] with
  | none => simp [cGt]
  | some q => simp [cGt]

/-- C5 witness: at scores `[3, 1]` and threshold 2, row 0 (score 3 > 2) is
flagged. -/
theorem anomaly_mask_strict_witness :
    (anomalyMask [some 3, some 1] (some 2)).getD 0 false = true ↔
      ∃ q, ([some 3, some 1] : List Cell).getD 0 none = some q ∧ (2 : ℚ) < q :=
  anomaly_mask_strict [some 3, some 1] 2 0 (by decide)

/-- C6: the KPI computation.  With equal non-zero lengths: detection rate
is `anomalies/total·100`; with a ground-truth label column, precision is
`tp/anomalies·100` (0 when nothing is flagged), recall is `tp/tf·100` (0
when there are no true frauds) and F1 is `2·p·r/(p+r)` (0 when `p+r = 0`);
without the label column, precision/recall/F1 are `None`, not 0; and the
P7 instance (100 customers, 10 true frauds, 8 flagged of which 5 are true
frauds) yields precision 62.5, recall 50 and F1 = 500/9 ≈ 55.6. -/
theorem kpi_formulas :
    (∀ (scores : List Cell) (thr : Cell) (cust : CustomerTable) (labels : List Bool),
      cust.fraud = some labels → scores.length = cust.n → 0 < cust.n →
      createKpiCards scores thr cust =
        (let A := ((anomalyMask scores thr).filter (fun b => b)).length
         let tp := ((List.zipWith (fun a b => a && b) (anomalyMask scores thr) labels).filter
            (fun b => b)).length
         let tf := (labels.filter (fun b => b)).length
         let p : ℚ := if 0 < A then ((tp : ℚ) / (A : ℚ)) * 100 else 0
         let r : ℚ := if 0 < tf then ((tp : ℚ) / (tf : ℚ)) * 100 else 0
         { totalCustomers := cust.n
         , anomaliesDetected := A
         , detectionRate := ((A : ℚ) / (cust.n : ℚ)) * 100
         , precision := some p
         , recallVal := some r
         , f1 := some (if 0 < p + r then 2 * ((p * r) / (p + r)) else 0) })) ∧
    (∀ (scores : List Cell) (thr : Cell) (cust : CustomerTable),
      cust.fraud = none → scores.length = cust.n → 0 < cust.n →
      createKpiCards scores thr cust =
        { totalCustomers := cust.n
        , anomaliesDetected := ((anomalyMask scores thr).filter (fun b => b)).length
        , detectionRate :=
            ((((anomalyMask scores thr).filter (fun b => b)).length : ℚ) / (cust.n : ℚ)) * 100
        , precision := none, recallVal := none, f1 := none }) ∧
    createKpiCards p7scores (some 1) p7cust =
      { totalCustomers := 100, anomaliesDetected := 8, detectionRate := 8
      , precision := some (125 / 2), recallVal := some 50, f1 := some (500 / 9) } := by
  refine ⟨?_, ?_, ?_⟩
  · intro scores thr cust labels hf hlen hn
    have hne : cust.n ≠ 0 := by omega
    unfold createKpiCards
    simp only [hlen, hf, hne, or_self, if_false, ne_eq, not_true_eq_false, ite_false,
      eq_self_iff_true, if_pos hn]
  · intro scores thr cust hf hlen hn
    have hne : cust.n ≠ 0 := by omega
    unfold createKpiCards
    simp only [hlen, hf, hne, or_self, if_false, ne_eq, not_true_eq_false, ite_false,
      eq_self_iff_true, if_pos hn]
  · set_option maxRecDepth 40000 in with_unfolding_all decide

/-- C6 witness: the labelled-table part at one customer with score 2,
threshold 1 and a true fraud label. -/
theorem kpi_formulas_witness :
    createKpiCards [some 2] (some 1) { n := 1, fraud := some [true] } =
      (let A := ((anomalyMask [some 2] (some 1)).filter (fun b => b)).length
       let tp := ((List.zipWith (fun a b => a && b) (anomalyMask [some 2] (some 1))
          [true]).filter (fun b => b)).length
       let tf := ([true].filter (fun b => b)).length
       let p : ℚ := if 0 < A then ((tp : ℚ) / (A : ℚ)) * 100 else 0
       let r : ℚ := if 0 < tf then ((tp : ℚ) / (tf : ℚ)) * 100 else 0
       { totalCustomers := 1
       , anomaliesDetected := A
       , detectionRate := ((A : ℚ) / ((1 : Nat) : ℚ)) * 100
       , precision := some p
       , recallVal := some r
       , f1 := some (if 0 < p + r then 2 * ((p * r) / (p + r)) else 0) }) :=
  kpi_formulas.1 [some 2] (some 1) { n := 1, fraud := some [true] } [true] rfl rfl
    (by decide)

/-! ### Shape lemmas for imputation, standardization and scoring -/

theorem colNanMeans_length (X : List (List Cell)) : (colNanMeans X).length = ncols X := by
  unfold colNanMeans
  rw [List.length_map, List.length_range]

theorem npImpute_length (X : List (List Cell)) : (npImpute X).length = X.length := by
  unfold npImpute
  split
  · rw [List.length_map]
  · rfl

/-- Imputation is the identity on a NaN-free row (of width at most the
means vector). -/
theorem imputeRow_id (means row : List Cell) (hrow : ∀ c ∈ row, c.isNone = false)
    (hlen : row.length ≤ means.length) : imputeRow means row = row := by
  unfold imputeRow
  induction row generalizing means with
  | nil => simp
  | cons c t ih =>
    cases means with
    | nil => simp at hlen
    | cons mc mt =>
      rw [List.zipWith_cons_cons]
      have hc : c.isNone = false := hrow c (List.mem_cons_self c t)
      rw [hc]
      simp only [Bool.false_eq_true, if_false, List.cons.injEq, true_and]
      exact ih mt (fun x hx => hrow x (List.mem_cons_of_mem c hx))
        (Nat.le_of_succ_le_succ hlen)

/-- If the whole batch is NaN-free, so is each row. -/
theorem rows_nanFree_of_not_hasNaN (X : List (List Cell)) (h : hasNaN X = false)
    (row : List Cell) (hr : row ∈ X) : ∀ c ∈ row, c.isNone = false := by
  intro c hc
  by_contra hne
  rw [Bool.not_eq_false] at hne
  have ht : hasNaN X = true := by
    unfold hasNaN
    rw [List.any_eq_true]
    exact ⟨row, hr, by rw [List.any_eq_true]; exact ⟨c, hc, hne⟩⟩
  rw [h] at ht
  simp at ht

/-- Row `i` of the imputed batch is row `i` of the input imputed with the
batch column means (rectangular batches). -/
theorem npImpute_getD (X : List (List Cell)) (d : Nat) (i : Nat)
    (hR : Rect X d) (hi : i < X.length) :
    (npImpute X).getD i [] = imputeRow (colNanMeans X) (X.getD i []) := by
  unfold npImpute
  split
  · rw [List.getD_eq_getElem?_getD, List.getElem?_map, List.getElem?_eq_getElem hi,
      List.getD_eq_getElem?_getD, List.getElem?_eq_getElem hi]
    rfl
  · rename_i hno
    rw [Bool.not_eq_true] at hno
    have hmem : X.getD i [] ∈ X := by
      rw [List.getD_eq_getElem?_getD, List.getElem?_eq_getElem hi]
      exact List.getElem_mem hi
    refine (imputeRow_id _ _ (rows_nanFree_of_not_hasNaN X hno _ hmem) ?_).symm
    rw [colNanMeans_length]
    have h1 : (X.getD i []).length = d := hR _ hmem
    have h2 : ncols X = d := by
      unfold ncols
      cases X with
      | nil => simp at hi
      | cons r t => exact hR r (List.mem_cons_self r t)
    omega

/-- Characterization of a successful `StandardScaler.transform`. -/
theorem scalerTransform_ok (means scales : List ℚ) (Y Z : List (List Cell))
    (h : scalerTransform means scales Y = .ok Z) :
    Z = Y.map (transformRow means scales) ∧ Y.length ≠ 0 ∧
      ncols Y ≠ 0 ∧ ncols Y = means.length := by
  unfold scalerTransform at h
  split at h
  · exact absurd h (by simp)
  · split at h
    · exact absurd h (by simp)
    · split at h
      · exact absurd h (by simp)
      · rename_i h1 h2 h3
        exact ⟨(Except.ok.inj h).symm, h1, h2, by omega⟩

/-- A successful `score_samples` on a fitted model is the row-map of the
standardized scoring function over the imputed batch. -/
theorem scoreSamples_ok_eq (m : MGDAnomaly) (X : List (List Cell)) (scores : List Cell)
    (hf : m.fitted = true) (h : scoreSamples m X = .ok scores) :
    scores = (npImpute X).map
      (fun r => scoreRowStd m (transformRow m.means m.scales r)) := by
  unfold scoreSamples at h
  rw [hf] at h
  simp only [Bool.true_eq_false, if_false] at h
  cases hT : scalerTransform m.means m.scales (npImpute X) with
  | error e => rw [hT] at h; exact absurd h (by simp)
  | ok Xs =>
    rw [hT] at h
    obtain ⟨hZ, -, -, -⟩ := scalerTransform_ok _ _ _ _ hT
    rw [← Except.ok.inj h, hZ, List.map_map]
    rfl

/-- The embedded `fit` on a non-empty batch, when it returns, returns a
fitted model. -/
theorem fit_ok_fitted (X : List (List Cell)) (P : List (List ℚ)) (m : MGDAnomaly)
    (hX : X.length ≠ 0) (h : fit X P = .ok m) : m.fitted = true := by
  unfold fit at h
  rw [if_neg hX] at h
  dsimp only at h
  split at h
  · exact absurd h (by simp)
  · rw [← Except.ok.inj h]

theorem scoreSamples_ok_length (m : MGDAnomaly) (X : List (List Cell)) (scores : List Cell)
    (hf : m.fitted = true) (h : scoreSamples m X = .ok scores) :
    scores.length = X.length := by
  rw [scoreSamples_ok_eq m X scores hf h, List.length_map, npImpute_length]

/-- C3: on a fitted model, scoring a (rectangular, non-empty, non-trivial)
batch whose column count differs from the fit-time feature count fails
fast with the dimension-mismatch error — no scores (silent, NaN or
otherwise) are produced. -/
theorem score_dim_mismatch_fails (m : MGDAnomaly) (X : List (List Cell)) (d : Nat)
    (hf : m.fitted = true) (hR : Rect X d) (hX : 0 < X.length) (hd : 0 < d)
    (hmis : d ≠ m.means.length) :
    scoreSamples m X = .error .dimensionMismatch := by
  have hcols : ncols (npImpute X) = d := by
    unfold npImpute
    split
    · cases X with
      | nil => simp at hX
      | cons r t =>
        have hr : r.length = d := hR r (List.mem_cons_self r t)
        have hc : ncols (r :: t) = d := by unfold ncols; rw [List.headD_cons]; exact hr
        unfold ncols
        rw [List.map_cons, List.headD_cons]
        unfold imputeRow
        rw [List.length_zipWith, colNanMeans_length, hr, hc]
        omega
    · cases X with
      | nil => simp at hX
      | cons r t =>
        unfold ncols
        rw [List.headD_cons]
        exact hR r (List.mem_cons_self r t)
  unfold scoreSamples
  rw [hf]
  simp only [Bool.true_eq_false, if_false]
  have hlen : (npImpute X).length ≠ 0 := by rw [npImpute_length]; omega
  unfold scalerTransform
  rw [if_neg hlen, hcols, if_neg (by omega : ¬ d = 0), if_pos hmis]

/-- C3 witness: the one-feature model rejects a two-column batch. -/
theorem score_dim_mismatch_fails_witness :
    scoreSamples oneFeatModel [[some 1, some 2]] = .error .dimensionMismatch :=
  score_dim_mismatch_fails oneFeatModel [[some 1, some 2]] 2 rfl (by decide)
    (by decide) (by decide) (by decide)

/-- C4: whenever the scoring-and-threshold pipeline of the app completes, the
returned threshold is `mean(scores) + k·std(scores)` for a non-empty score
vector and 0 by convention for an empty one (no error is raised on the
empty path); `k` ranges over the slider bounds [1.5, 5.0]. -/
theorem threshold_formula (features : List (List Cell)) (P : List (List ℚ)) (k : ℚ)
    (scores : List Cell) (thr : Cell)
    (hk1 : (3 : ℚ) / 2 ≤ k) (hk2 : k ≤ 5)
    (h : appPipeline features P k = .ok (scores, thr)) :
    (scores = [] → thr = some 0) ∧
    (scores ≠ [] → thr = cAdd (npMeanList scores) (cMul (some k) (npStdList scores))) := by
  unfold appPipeline at h
  by_cases hF : features.length = 0
  · rw [if_pos hF] at h
    have h1 : (([] : List Cell), (some 0 : Cell)) = (scores, thr) := Except.ok.inj h
    have hs : ([] : List Cell) = scores := congrArg Prod.fst h1
    have ht : (some 0 : Cell) = thr := congrArg Prod.snd h1
    exact ⟨fun _ => ht.symm, fun hne => absurd hs.symm hne⟩
  · rw [if_neg hF] at h
    cases hfit : fit features P with
    | error e => rw [hfit] at h; exact absurd h (by simp)
    | ok m =>
      rw [hfit] at h
      dsimp only at h
      cases hsc : scoreSamples m features with
      | error e => rw [hsc] at h; exact absurd h (by simp)
      | ok s =>
        rw [hsc] at h
        dsimp only at h
        have h1 : (s, cAdd (npMeanList s) (cMul (some k) (npStdList s))) = (scores, thr) :=
          Except.ok.inj h
        have hs : s = scores := congrArg Prod.fst h1
        have ht : cAdd (npMeanList s) (cMul (some k) (npStdList s)) = thr :=
          congrArg Prod.snd h1
        have hfitted : m.fitted = true := fit_ok_fitted features P m hF hfit
        have hlen : s.length = features.length :=
          scoreSamples_ok_length m features s hfitted hsc
        have hne : scores ≠ [] := by
          rw [← hs]
          intro hnil
          rw [hnil] at hlen
          simp at hlen
          exact hF hlen.symm
        refine ⟨fun habs => absurd habs hne, fun _ => ?_⟩
        rw [← ht, hs]

/-- C4 witness: the pipeline on the batch `[[1],[2]]` with `k = 2`
produces the non-empty score vector `[1, 1]` and threshold
`mean + 2·std = 1`. -/
theorem threshold_formula_witness :
    (some 1 : Cell) = cAdd (npMeanList [some 1, some 1])
      (cMul (some 2) (npStdList [some 1, some 1])) :=
  (threshold_formula [[some 1], [some 2]] [[1]] 2 [some 1, some 1] (some 1)
    (by norm_num) (by norm_num) (by with_unfolding_all decide)).2 (by decide)

/-- C8: every successful `score_samples` call on a fitted model returns
exactly one score per input row, and the `i`-th score is computed from the
`i`-th input row (imputed with the batch column means) — no reordering or
filtering, even when rows required NaN imputation. -/
theorem score_length_order_preserved (m : MGDAnomaly) (X : List (List Cell)) (d : Nat)
    (scores : List Cell) (hf : m.fitted = true) (hR : Rect X d)
    (h : scoreSamples m X = .ok scores) :
    scores.length = X.length ∧
    ∀ i, i < X.length →
      scores.getD i none =
        scoreRowStd m (transformRow m.means m.scales
          (imputeRow (colNanMeans X) (X.getD i []))) := by
  have he := scoreSamples_ok_eq m X scores hf h
  constructor
  · rw [he, List.length_map, npImpute_length]
  · intro i hi
    have hi2 : i < (npImpute X).length := by rw [npImpute_length]; exact hi
    have hg : (npImpute X).getD i [] = (npImpute X)[i] := by
      rw [List.getD_eq_getElem?_getD, List.getElem?_eq_getElem hi2]
      rfl
    rw [he, List.getD_eq_getElem?_getD, List.getElem?_map, List.getElem?_eq_getElem hi2,
      ← npImpute_getD X d i hR hi, hg]
    rfl

/-- C8 witness: on the batch `[[2],[4]]` the one-feature model returns the
two scores `[0, 2]`, and score 1 is the pipeline applied to row 1. -/
theorem score_length_order_preserved_witness :
    ([some 0, some 2] : List Cell).getD 1 none =
      scoreRowStd oneFeatModel (transformRow oneFeatModel.means oneFeatModel.scales
        (imputeRow (colNanMeans [[some 2], [some 4]])
          (([[some 2], [some 4]] : List (List Cell)).getD 1 []))) :=
  (score_length_order_preserved oneFeatModel [[some 2], [some 4]] 1 [some 0, some 2]
    rfl (by decide) (by with_unfolding_all decide)).2 1 (by decide)

/-! ### NaN propagation through the scoring arithmetic -/

theorem getD_eq_getElem {α : Type _} (l : List α) (j : Nat) (dflt : α)
    (h : j < l.length) : l.getD j dflt = l[j] := by
  rw [List.getD_eq_getElem?_getD, List.getElem?_eq_getElem h]
  rfl

/-- Computing `np.nanmean` of an all-NaN column yields NaN. -/
theorem nanMean_none_of_all (col : List Cell) (h : ∀ c ∈ col, c = none) :
    nanMean col = none := by
  unfold nanMean
  have hv : col.filterMap id = [] := by
    rw [List.eq_nil_iff_forall_not_mem]
    intro q hq
    rw [List.mem_filterMap] at hq
    obtain ⟨c, hc, hcq⟩ := hq
    rw [h c hc] at hcq
    cases hcq
  rw [hv]
  rfl

/-- Computing `np.nanmean` of a column with at least one number is a number. -/
theorem nanMean_some_of_mem (col : List Cell) (q : ℚ) (h : some q ∈ col) :
    ∃ r, nanMean col = some r := by
  unfold nanMean
  have hq : q ∈ col.filterMap id := by
    rw [List.mem_filterMap]
    exact ⟨some q, h, rfl⟩
  have hlen : (col.filterMap id).length ≠ 0 := by
    intro h0
    rw [List.length_eq_zero] at h0
    rw [h0] at hq
    cases hq
  rw [if_neg hlen]
  exact ⟨_, rfl⟩

theorem cMul_none_left (b : Cell) : cMul none b = none := cLift_none_left _ b

theorem cMul_none_right (a : Cell) : cMul a none = none := cLift_none_right _ a

theorem cSub_none_left (b : Cell) : cSub none b = none := cLift_none_left _ b

theorem cDiv_none_left (b : Cell) : cDiv none b = none := cLift_none_left _ b

/-- A NaN in either factor sequence (at a shared index) poisons `np.dot`. -/
theorem dotC_none (v w : List Cell) (j : Nat) (hjv : j < v.length) (hjw : j < w.length)
    (h : v[j] = none ∨ w[j] = none) : dotC v w = none := by
  unfold dotC
  apply cSum_eq_none_of_mem
  have hj : j < (List.zipWith cMul v w).length := by
    rw [List.length_zipWith]
    omega
  have hval : (List.zipWith cMul v w)[j] = none := by
    rw [List.getElem_zipWith]
    rcases h with h1 | h2
    · rw [h1, cMul_none_left]
    · rw [h2, cMul_none_right]
  rw [← hval]
  exact List.getElem_mem hj

theorem matVecC_length (P : List (List ℚ)) (v : List Cell) :
    (matVecC P v).length = P.length := List.length_map _ _

/-- With a NaN at a column index covered by every matrix row, every entry
of `P · v` is NaN. -/
theorem matVecC_entry_none (P : List (List ℚ)) (v : List Cell) (j : Nat)
    (hrows : ∀ row ∈ P, j < row.length) (hjv : j < v.length) (hv : v[j] = none) :
    ∀ e ∈ matVecC P v, e = none := by
  intro e he
  rw [matVecC, List.mem_map] at he
  obtain ⟨row, hrow, rfl⟩ := he
  exact dotC_none _ v j (by rw [List.length_map]; exact hrows row hrow) hjv (Or.inr hv)

/-- A NaN coordinate makes the whole Mahalanobis quadratic form NaN. -/
theorem mahaSq_none (P : List (List ℚ)) (v : List Cell) (j : Nat)
    (hjv : j < v.length) (hjP : j < P.length) (hrows : ∀ row ∈ P, j < row.length)
    (hnone : v[j] = none) : mahaSq P v = none := by
  unfold mahaSq
  have hjm : j < (matVecC P v).length := by rw [matVecC_length]; exact hjP
  refine dotC_none v _ j hjv hjm (Or.inr ?_)
  exact matVecC_entry_none P v j hrows hjv hnone _ (List.getElem_mem hjm)

/-- A NaN coordinate in the standardized row makes its score NaN: the NaN
flows through centering, the quadratic form and the square root. -/
theorem scoreRowStd_none (m : MGDAnomaly) (xs : List Cell) (j : Nat)
    (hjx : j < xs.length) (hjmu : j < m.mu.length) (hjP : j < m.precision.length)
    (hrows : ∀ row ∈ m.precision, j < row.length) (hnone : xs[j] = none) :
    scoreRowStd m xs = none := by
  unfold scoreRowStd
  have hjc : j < (List.zipWith cSub xs (m.mu.map some)).length := by
    rw [List.length_zipWith, List.length_map]
    omega
  have hc : (List.zipWith cSub xs (m.mu.map some))[j] = none := by
    rw [List.getElem_zipWith, hnone, cSub_none_left]
  rw [mahaSq_none m.precision _ j hjc hjP hrows hc]
  rfl

/-- Standardization preserves a NaN cell. -/
theorem transformRow_none (means scales : List ℚ) (row : List Cell) (j : Nat)
    (hjr : j < row.length) (hjm : j < means.length) (hjs : j < scales.length)
    (h : row[j] = none) :
    j < (transformRow means scales row).length ∧
      (transformRow means scales row).getD j (some 0) = none := by
  have hl : j < (transformRow means scales row).length := by
    unfold transformRow
    rw [List.length_zipWith, List.length_zip]
    omega
  refine ⟨hl, ?_⟩
  rw [getD_eq_getElem _ _ _ hl]
  unfold transformRow at hl ⊢
  rw [List.getElem_zipWith, h, cSub_none_left, cDiv_none_left]

/-- Imputation leaves a NaN in place when the whole column of the cell is NaN
(the imputation mean is itself NaN). -/
theorem imputeRow_none_of_all_none_col (X : List (List Cell)) (row : List Cell) (j : Nat)
    (hjr : j < row.length) (hjc : j < ncols X)
    (hcol : ∀ r ∈ X, r.getD j none = none) (h : row[j] = none) :
    j < (imputeRow (colNanMeans X) row).length ∧
      (imputeRow (colNanMeans X) row).getD j (some 0) = none := by
  have hmlen : j < (colNanMeans X).length := by rw [colNanMeans_length]; exact hjc
  have hmean : (colNanMeans X)[j] = none := by
    unfold colNanMeans
    rw [List.getElem_map, List.getElem_range]
    apply nanMean_none_of_all
    intro c hc
    rw [colAt, List.mem_map] at hc
    obtain ⟨r, hr, rfl⟩ := hc
    exact hcol r hr
  have hl : j < (imputeRow (colNanMeans X) row).length := by
    unfold imputeRow
    rw [List.length_zipWith]
    omega
  refine ⟨hl, ?_⟩
  rw [getD_eq_getElem _ _ _ hl]
  unfold imputeRow at hl ⊢
  rw [List.getElem_zipWith, h, hmean]
  rfl

theorem hasNaN_of_mem (X : List (List Cell)) (row : List Cell) (c : Cell)
    (hrow : row ∈ X) (hc : c ∈ row) (h : c = none) : hasNaN X = true := by
  unfold hasNaN
  rw [List.any_eq_true]
  refine ⟨row, hrow, ?_⟩
  rw [List.any_eq_true]
  exact ⟨c, hc, by rw [h]; rfl⟩

theorem ncols_eq_of_rect (X : List (List Cell)) (d : Nat) (hR : Rect X d)
    (hX : 0 < X.length) : ncols X = d := by
  cases X with
  | nil => simp at hX
  | cons r t =>
    unfold ncols
    rw [List.headD_cons]
    exact hR r (List.mem_cons_self r t)

theorem colScales_length (X : List (List Cell)) : (colScales X).length = ncols X := by
  unfold colScales
  rw [List.length_map, List.length_range]

theorem ncols_npImpute (X : List (List Cell)) (d : Nat) (hR : Rect X d)
    (hX : 0 < X.length) : ncols (npImpute X) = d := by
  unfold npImpute
  split
  · cases X with
    | nil => simp at hX
    | cons r t =>
      have hr : r.length = d := hR r (List.mem_cons_self r t)
      have hc : ncols (r :: t) = d := ncols_eq_of_rect _ d hR hX
      unfold ncols
      rw [List.map_cons, List.headD_cons]
      unfold imputeRow
      rw [List.length_zipWith, colNanMeans_length, hr, hc]
      omega
  · exact ncols_eq_of_rect X d hR hX

theorem listMapCongr {α β : Type _} (l : List α) (f g : α → β)
    (h : ∀ a ∈ l, f a = g a) : l.map f = l.map g := by
  induction l with
  | nil => rfl
  | cons a t ih =>
    rw [List.map_cons, List.map_cons, h a (List.mem_cons_self a t),
      ih (fun x hx => h x (List.mem_cons_of_mem a hx))]

/-- C9 (amended): a feature column that is entirely NaN survives mean
imputation as NaN.  `fit` then fails — but with the generic invalid-input error
of the covariance estimator, not a dedicated AllMissingColumn error — while
`score_samples` on a fitted model does not fail at all: it silently
returns a NaN score for every row. -/
theorem all_missing_column_behaviour :
    (∀ (X : List (List Cell)) (P : List (List ℚ)) (d j : Nat),
      Rect X d → 0 < X.length → j < d → (∀ r ∈ X, r.getD j none = none) →
      fit X P = .error .nanInput) ∧
    (∀ (m : MGDAnomaly) (X : List (List Cell)) (d j : Nat),
      m.fitted = true → m.means.length = d → m.scales.length = d → m.mu.length = d →
      m.precision.length = d → (∀ row ∈ m.precision, row.length = d) →
      Rect X d → 0 < X.length → j < d → (∀ r ∈ X, r.getD j none = none) →
      scoreSamples m X = .ok (X.map (fun _ => none))) := by
  constructor
  · intro X P d j hR hX hj hcol
    have hr0len : X[0].length = d := hR _ (List.getElem_mem hX)
    have hj0 : j < X[0].length := by omega
    have hr0j : X[0][j] = none := by
      rw [← getD_eq_getElem X[0] j none hj0]
      exact hcol _ (List.getElem_mem hX)
    have hN : hasNaN X = true :=
      hasNaN_of_mem X X[0] (X[0][j]) (List.getElem_mem hX) (List.getElem_mem hj0) hr0j
    have hXlen : ¬ X.length = 0 := by omega
    unfold fit
    rw [if_neg hXlen]
    dsimp only
    obtain ⟨hjl1, hv1⟩ := imputeRow_none_of_all_none_col X X[0] j hj0
      (by rw [ncols_eq_of_rect X d hR hX]; exact hj) hcol hr0j
    have hv1e : (imputeRow (colNanMeans X) X[0])[j] = none := by
      rw [← getD_eq_getElem _ j (some 0) hjl1]
      exact hv1
    have hrowmem : imputeRow (colNanMeans X) X[0] ∈ npImpute X := by
      unfold npImpute
      rw [if_pos hN, List.mem_map]
      exact ⟨X[0], List.getElem_mem hX, rfl⟩
    have hjs : j < (List.zipWith (fun c p => cDiv (cSub c (Prod.fst p)) (Prod.snd p))
        (imputeRow (colNanMeans X) X[0])
        ((colNanMeans (npImpute X)).zip (colScales (npImpute X)))).length := by
      rw [List.length_zipWith, List.length_zip, colNanMeans_length, colScales_length,
        ncols_npImpute X d hR hX]
      omega
    have hcell : (List.zipWith (fun c p => cDiv (cSub c (Prod.fst p)) (Prod.snd p))
        (imputeRow (colNanMeans X) X[0])
        ((colNanMeans (npImpute X)).zip (colScales (npImpute X))))[j] = none := by
      rw [List.getElem_zipWith, hv1e, cSub_none_left, cDiv_none_left]
    have hNs : hasNaN (List.map (fun row => List.zipWith
        (fun c p => cDiv (cSub c (Prod.fst p)) (Prod.snd p)) row
        ((colNanMeans (npImpute X)).zip (colScales (npImpute X)))) (npImpute X)) = true := by
      refine hasNaN_of_mem _ _ _ ?_ (List.getElem_mem hjs) hcell
      rw [List.mem_map]
      exact ⟨imputeRow (colNanMeans X) X[0], hrowmem, rfl⟩
    rw [if_pos hNs]
  · intro m X d j hf hmeans hscales hmu hPlen hProws hR hX hj hcol
    unfold scoreSamples
    rw [hf]
    simp only [Bool.true_eq_false, if_false]
    have hn1 : ncols (npImpute X) = d := ncols_npImpute X d hR hX
    have hT : scalerTransform m.means m.scales (npImpute X)
        = .ok ((npImpute X).map (transformRow m.means m.scales)) := by
      unfold scalerTransform
      rw [if_neg (by rw [npImpute_length]; omega), hn1, if_neg (by omega : ¬ d = 0),
        if_neg (by rw [hmeans]; omega : ¬ d ≠ m.means.length)]
    rw [hT]
    dsimp only
    rw [List.map_map]
    have hX1 : npImpute X = X.map (imputeRow (colNanMeans X)) := by
      have hr0len : X[0].length = d := hR _ (List.getElem_mem hX)
      have hj0 : j < X[0].length := by omega
      have hr0j : X[0][j] = none := by
        rw [← getD_eq_getElem X[0] j none hj0]
        exact hcol _ (List.getElem_mem hX)
      have hN : hasNaN X = true :=
        hasNaN_of_mem X X[0] (X[0][j]) (List.getElem_mem hX) (List.getElem_mem hj0) hr0j
      unfold npImpute
      rw [if_pos hN]
    rw [hX1, List.map_map]
    refine congrArg Except.ok (listMapCongr X _ _ ?_)
    intro r hr
    have hrlen : r.length = d := hR r hr
    have hjr : j < r.length := by omega
    have hrj : r[j] = none := by
      rw [← getD_eq_getElem r j none hjr]
      exact hcol r hr
    obtain ⟨hjl1, hv1⟩ := imputeRow_none_of_all_none_col X r j hjr
      (by rw [ncols_eq_of_rect X d hR hX]; exact hj) hcol hrj
    have hv1e : (imputeRow (colNanMeans X) r)[j] = none := by
      rw [← getD_eq_getElem _ j (some 0) hjl1]
      exact hv1
    obtain ⟨hjl2, hv2⟩ := transformRow_none m.means m.scales (imputeRow (colNanMeans X) r) j
      hjl1 (by omega) (by omega) hv1e
    have hv2e : (transformRow m.means m.scales (imputeRow (colNanMeans X) r))[j] = none := by
      rw [← getD_eq_getElem _ j (some 0) hjl2]
      exact hv2
    exact scoreRowStd_none m _ j hjl2 (by omega) (by omega)
      (fun row hrow => by rw [hProws row hrow]; exact hj) hv2e

/-! ### NaN-free evaluation of the scoring arithmetic -/

/-- A NaN-free cell list is the image of a rational list. -/
theorem exists_map_some (l : List Cell) (h : ∀ c ∈ l, c ≠ none) :
    ∃ v : List ℚ, l = v.map some := by
  induction l with
  | nil => exact ⟨[], rfl⟩
  | cons c t ih =>
    obtain ⟨v, hv⟩ := ih (fun x hx => h x (List.mem_cons_of_mem c hx))
    cases c with
    | none => exact absurd rfl (h none (List.mem_cons_self none t))
    | some q => exact ⟨q :: v, by rw [List.map_cons, hv]⟩

/-- On NaN-free data the Mahalanobis form computes the rational quadratic
form. -/
theorem mahaSq_map_some (P : List (List ℚ)) (v : List ℚ) :
    mahaSq P (v.map some) = some (qformQ P v) := by
  unfold mahaSq qformQ
  have hmv : matVecC P (v.map some) = (P.map (fun row => dotQ row v)).map some := by
    unfold matVecC
    rw [List.map_map]
    exact listMapCongr P _ _ (fun row _ => dotC_map_some row v)
  rw [hmv, dotC_map_some]

/-- Computing `np.nanmean` of a column with at least one number: packaged with `getD`
access for reuse. -/
theorem colNanMeans_getD_some (X : List (List Cell)) (j : Nat) (hj : j < ncols X)
    (h : ∃ r ∈ X, r.getD j none ≠ none) :
    ∃ mq, (colNanMeans X).getD j none = some mq := by
  obtain ⟨r, hr, hcell⟩ := h
  have hjm : j < (colNanMeans X).length := by rw [colNanMeans_length]; exact hj
  rw [getD_eq_getElem _ _ _ hjm]
  unfold colNanMeans
  rw [List.getElem_map, List.getElem_range]
  cases hcv : r.getD j none with
  | none => exact absurd hcv hcell
  | some mq =>
    apply nanMean_some_of_mem _ mq
    rw [colAt, List.mem_map]
    exact ⟨r, hr, hcv⟩

/-- Under the no-all-NaN-column hypothesis, imputation leaves no NaN in the
batch. -/
theorem npImpute_all_some (X : List (List Cell)) (d : Nat) (hR : Rect X d)
    (hX : 0 < X.length)
    (hnomiss : ∀ jj, jj < d → ∃ r ∈ X, r.getD jj none ≠ none) :
    ∀ r1 ∈ npImpute X, ∀ c ∈ r1, c ≠ none := by
  have hnc : ncols X = d := ncols_eq_of_rect X d hR hX
  intro r1 hr1 c hc
  unfold npImpute at hr1
  by_cases hN : hasNaN X = true
  · rw [if_pos hN, List.mem_map] at hr1
    obtain ⟨r0, hr0, rfl⟩ := hr1
    rw [List.mem_iff_getElem] at hc
    obtain ⟨i, hi, rfl⟩ := hc
    unfold imputeRow at hi ⊢
    have hi1 : i < r0.length := by rw [List.length_zipWith] at hi; omega
    have hi2 : i < (colNanMeans X).length := by rw [List.length_zipWith] at hi; omega
    have hid : i < d := by have := hR r0 hr0; omega
    rw [List.getElem_zipWith]
    cases h0 : r0[i] with
    | some q => simp [h0]
    | none =>
      obtain ⟨mq, hmq⟩ := colNanMeans_getD_some X i (by omega) (hnomiss i hid)
      rw [getD_eq_getElem _ _ _ hi2] at hmq
      simp [h0, hmq]
  · rw [Bool.not_eq_true] at hN
    rw [if_neg (by rw [hN]; exact Bool.false_ne_true)] at hr1
    have := rows_nanFree_of_not_hasNaN X hN r1 hr1 c hc
    cases c with
    | none => cases this
    | some q => exact fun hh => Option.noConfusion hh

/-- Standardization keeps NaN-free rows NaN-free. -/
theorem transformRow_all_some (means scales : List ℚ) (row : List Cell)
    (hall : ∀ c ∈ row, c ≠ none) :
    ∀ c ∈ transformRow means scales row, c ≠ none := by
  intro c hc
  rw [List.mem_iff_getElem] at hc
  obtain ⟨i, hi, rfl⟩ := hc
  unfold transformRow at hi ⊢
  have hi1 : i < row.length := by rw [List.length_zipWith] at hi; omega
  rw [List.getElem_zipWith]
  cases h0 : row[i] with
  | none => exact absurd h0 (hall _ (List.getElem_mem hi1))
  | some q => simp [h0, cSub, cDiv, cLift]

/-- A NaN-free standardized row scores to a non-negative number whenever
the precision matrix is positive semidefinite (the sklearn `pinvh` of a
covariance matrix always is). -/
theorem scoreRowStd_nonneg (m : MGDAnomaly) (xs : List Cell)
    (hall : ∀ c ∈ xs, c ≠ none)
    (hPSD : ∀ v : List ℚ, 0 ≤ qformQ m.precision v) :
    ∃ q : ℚ, scoreRowStd m xs = some q ∧ 0 ≤ q := by
  obtain ⟨v, rfl⟩ := exists_map_some xs hall
  unfold scoreRowStd
  rw [show List.zipWith cSub (v.map some) (m.mu.map some)
      = (List.zipWith (· - ·) v m.mu).map some from zipWith_cLift_map_some _ v m.mu,
    mahaSq_map_some]
  refine ⟨Rat.sqrt (qformQ m.precision (List.zipWith (· - ·) v m.mu)), ?_, Rat.sqrt_nonneg _⟩
  show npSqrt _ = _
  unfold npSqrt
  rw [if_neg (not_lt.mpr (hPSD _))]

/-- The 1×1 identity precision matrix is positive semidefinite under the
truncating list quadratic form. -/
theorem qformQ_one_nonneg : ∀ v : List ℚ, 0 ≤ qformQ [[1]] v := by
  intro v
  unfold qformQ dotQ
  cases v with
  | nil => simp
  | cons a t =>
    simp only [List.map_cons, List.map_nil, List.zipWith_cons_cons, List.zipWith_nil_right,
      List.zipWith_nil_left, List.sum_cons, List.sum_nil, one_mul, add_zero]
    nlinarith [mul_self_nonneg a]

/-- C7 counterexample: on a fitted model, scoring the batch `[[NaN]]`
returns the NaN score `[none]`, which is not a number `≥ 0` — refuting the
claim that every returned score is non-negative for every input. -/
theorem score_not_nonneg_on_nan :
    oneFeatModel.fitted = true ∧
    scoreSamples oneFeatModel ([[none]] : List (List Cell)) = .ok [none] ∧
    ¬ ∃ q : ℚ, (none : Cell) = some q ∧ 0 ≤ q := by
  refine ⟨rfl, by with_unfolding_all decide, ?_⟩
  rintro ⟨q, hq, -⟩
  cases hq

/-- C7 (amended): on a fitted model with a positive semidefinite precision
matrix, every score returned for a batch in which no feature column is
entirely NaN is a non-negative number; all-NaN columns instead yield NaN
scores (see the all-missing-column analysis). -/
theorem scores_nonneg_when_imputable (m : MGDAnomaly) (X : List (List Cell))
    (d : Nat) (scores : List Cell)
    (hf : m.fitted = true) (hR : Rect X d) (hX : 0 < X.length)
    (hscale : ∀ s ∈ m.scales, s ≠ 0)
    (hPSD : ∀ v : List ℚ, 0 ≤ qformQ m.precision v)
    (hnomiss : ∀ jj, jj < d → ∃ r ∈ X, r.getD jj none ≠ none)
    (h : scoreSamples m X = .ok scores) :
    ∀ s ∈ scores, ∃ q : ℚ, s = some q ∧ 0 ≤ q := by
  intro s hs
  rw [scoreSamples_ok_eq m X scores hf h, List.mem_map] at hs
  obtain ⟨r1, hr1, rfl⟩ := hs
  exact scoreRowStd_nonneg m _
    (transformRow_all_some _ _ _ (npImpute_all_some X d hR hX hnomiss r1 hr1)) hPSD

/-- C7 witness: the score of the batch `[[4]]` under the one-feature
model is the non-negative number 2. -/
theorem scores_nonneg_when_imputable_witness :
    ∃ q : ℚ, (some 2 : Cell) = some q ∧ 0 ≤ q :=
  scores_nonneg_when_imputable oneFeatModel [[some 4]] 1 [some 2] rfl (by decide)
    (by decide) (by decide) (fun v => qformQ_one_nonneg v)
    (fun jj hjj => ⟨[some 4], List.mem_cons_self _ _, by
      have hjj0 : jj = 0 := by omega
      rw [hjj0]
      exact fun hh => Option.noConfusion hh⟩)
    (by with_unfolding_all decide) (some 2) (List.mem_cons_self _ _)

/-- C9 counterexample: scoring a batch whose only column is entirely NaN
does not fail fast with any error — the call succeeds and silently returns
a NaN score. -/
theorem all_missing_column_score_succeeds :
    oneFeatModel.fitted = true ∧
    scoreSamples oneFeatModel ([[none], [none]] : List (List Cell)) =
      .ok [none, none] := by
  exact ⟨rfl, by with_unfolding_all decide⟩

/-- C9 witness: the amended behaviour at concrete inputs — `fit` on an
all-NaN column errors (with the covariance NaN error) and
`score_samples` returns all-NaN scores. -/
theorem all_missing_column_behaviour_witness :
    fit ([[none], [none]] : List (List Cell)) [[1]] = .error .nanInput ∧
    scoreSamples oneFeatModel ([[none]] : List (List Cell)) = .ok [none] := by
  constructor
  · exact all_missing_column_behaviour.1 [[none], [none]] [[1]] 1 0 (by decide)
      (by decide) (by decide) (by decide)
  · exact all_missing_column_behaviour.2 oneFeatModel [[none]] 1 0 rfl rfl rfl rfl rfl
      (by decide) (by decide) (by decide) (by decide) (by decide)

/-- C10 counterexample: the batch `[[NaN]]` contains a NaN, yet neither
`fit` nor `score_samples` changes the array passed by the caller — the
imputed mean of the all-NaN column is NaN again, so the in-place write leaves the array
equal to what it was. -/
theorem impute_all_nan_column_unchanged :
    hasNaN ([[none]] : List (List Cell)) = true ∧
    fitArrayAfter ([[none]] : List (List Cell)) = [[none]] ∧
    scoreArrayAfter oneFeatModel ([[none]] : List (List Cell)) = [[none]] := by
  with_unfolding_all decide

/-- C10 (amended): NaN-free arrays are never changed by `fit` or
`score_samples`; an array holding a NaN in a column that also holds at
least one number is changed in place (the NaN slot is overwritten with
the batch mean of that column); a NaN in an all-NaN column is overwritten with
NaN, leaving the array value unchanged. -/
theorem impute_frame_effect :
    (∀ (m : MGDAnomaly) (X : List (List Cell)), hasNaN X = false →
      fitArrayAfter X = X ∧ scoreArrayAfter m X = X) ∧
    (∀ (X : List (List Cell)) (d i j : Nat) (m : MGDAnomaly),
      Rect X d → i < X.length → j < d → m.fitted = true →
      (X.getD i []).getD j (some 0) = none →
      (∃ r ∈ X, r.getD j none ≠ none) →
      fitArrayAfter X ≠ X ∧ scoreArrayAfter m X ≠ X) := by
  constructor
  · intro m X hN
    have himp : npImpute X = X := by
      unfold npImpute
      rw [hN]
      exact if_neg Bool.false_ne_true
    constructor
    · unfold fitArrayAfter
      split
      · rfl
      · exact himp
    · unfold scoreArrayAfter
      split
      · rfl
      · exact himp
  · intro X d i j m hR hi hj hfit hcell hsome
    have hX : 0 < X.length := by omega
    have hrowlen : (X.getD i []).length = d := by
      apply hR
      rw [getD_eq_getElem _ _ _ hi]
      exact List.getElem_mem hi
    have hjr : j < (X.getD i []).length := by omega
    have hXij : (X.getD i []).getD j (some 0) = none := hcell
    have hne : npImpute X ≠ X := by
      intro heq
      have hv := congrArg (fun Y => ((Y.getD i []).getD j (some 0) : Cell)) heq
      dsimp only at hv
      rw [npImpute_getD X d i hR hi] at hv
      -- left side: the imputed cell, which is the column mean
      obtain ⟨mq, hmq⟩ := colNanMeans_getD_some X j
        (by rw [ncols_eq_of_rect X d hR hX]; exact hj) hsome
      have hjm : j < (colNanMeans X).length := by
        rw [colNanMeans_length, ncols_eq_of_rect X d hR hX]
        exact hj
      have hjl : j < (imputeRow (colNanMeans X) (X.getD i [])).length := by
        unfold imputeRow
        rw [List.length_zipWith]
        omega
      rw [getD_eq_getElem _ _ _ hjl] at hv
      unfold imputeRow at hv
      rw [List.getElem_zipWith] at hv
      rw [getD_eq_getElem _ _ _ hjr] at hXij
      rw [getD_eq_getElem _ _ _ hjm] at hmq
      rw [hXij, hmq] at hv
      simp only [Option.isNone_none, if_true] at hv
      rw [getD_eq_getElem _ _ _ hjr, hXij] at hv
      cases hv
    constructor
    · unfold fitArrayAfter
      rw [if_neg (by omega : ¬ X.length = 0)]
      exact hne
    · unfold scoreArrayAfter
      rw [hfit]
      rw [if_neg (by simp : ¬ (true : Bool) = false)]
      exact hne

/-- C10 witness: both parts at concrete arrays — a NaN-free batch is
untouched, and `[[NaN], [4]]` is observably mutated (the NaN becomes the
column mean 4). -/
theorem impute_frame_effect_witness :
    (fitArrayAfter ([[some 3]] : List (List Cell)) = [[some 3]] ∧
      scoreArrayAfter oneFeatModel ([[some 3]] : List (List Cell)) = [[some 3]]) ∧
    (fitArrayAfter ([[none], [some 4]] : List (List Cell)) ≠ [[none], [some 4]] ∧
      scoreArrayAfter oneFeatModel ([[none], [some 4]] : List (List Cell)) ≠
        [[none], [some 4]]) := by
  constructor
  · exact impute_frame_effect.1 oneFeatModel [[some 3]] (by decide)
  · exact impute_frame_effect.2 [[none], [some 4]] 1 0 0 oneFeatModel (by decide)
      (by decide) (by decide) rfl (by decide)
      ⟨[some 4], by decide, by decide⟩
